import Mathlib

/-!
Shallow embedding of the candle metal-kernels dispatch layer, as exercised by
`src/candle-metal-kernels/src/tests.rs`.  The kernel bodies themselves live
outside the provided sources, so each kernel-level operation is modelled from
the specification's formulas (spec sections 4.1, 4.5-4.8); the test harness
functions (`run_where_cond`) that do appear in the sources are translated
directly.  Data is carried in `ℚ` (exact arithmetic standing in for `f32`)
except for softmax and cosine, which need `Real.exp` / `Real.cos`.
-/

open scoped BigOperators

/-- Modelled from the spec (section 4.1, Strided-Address Model): the linear
device offset contribution of a multi-index under given strides,
`Σ i_k * t_k`. -/
def stridedIndex (strides idx : List ℕ) : ℕ :=
  (List.zipWith (· * ·) idx strides).sum

/-- Modelled from the spec (section 4.1): row-major enumeration of the full
cartesian product of a shape, the iteration order of a strided kernel. -/
def enumIndices : List ℕ → List (List ℕ)
  | [] => [[]]
  | d :: rest => (List.range d).flatMap (fun i => (enumIndices rest).map (i :: ·))

/-- Modelled from the spec (section 4.4): the contiguous unary elementwise
kernel (`call_unary_contiguous`), applying `f` at flat indices. -/
def call_unary_contiguous {α : Type} (f : α → α) (v : List α) : List α :=
  v.map f

/-- Modelled from the spec (sections 4.1 and 4.4): the strided unary
elementwise kernel (`call_unary_strided`): iterate the cartesian product of
`shape` in row-major order, read each element at
`offset + Σ i_k * strides_k`, apply `f`, and write the results contiguously.
`d` is the out-of-bounds default standing in for an unchecked device read. -/
def call_unary_strided {α : Type} (f : α → α) (d : α) (v : List α)
    (shape strides : List ℕ) (offset : ℕ) : List α :=
  (enumIndices shape).map (fun idx => f (v.getD (offset + stridedIndex strides idx) d))

/-- Modelled from the spec (section 4.7, Conditional Select): the
`call_where_cond_strided` kernel.  Per strided-addressed element `i` of the
shared iteration shape, `output[i] = left[i] if cond[i] != 0 else right[i]`,
with `cond`, `left`, `right` each carrying their own strides and offset. -/
def call_where_cond_strided (shape : List ℕ) (cond : List ℕ)
    (condStride : List ℕ) (condOffset : ℕ)
    (left : List ℚ) (leftStride : List ℕ) (leftOffset : ℕ)
    (right : List ℚ) (rightStride : List ℕ) (rightOffset : ℕ) : List ℚ :=
  (enumIndices shape).map (fun idx =>
    if cond.getD (condOffset + stridedIndex condStride idx) 0 ≠ 0 then
      left.getD (leftOffset + stridedIndex leftStride idx) 0
    else
      right.getD (rightOffset + stridedIndex rightStride idx) 0)

/-- Translated from `run_where_cond` in `src/candle-metal-kernels/src/tests.rs`
(lines 709-763): the harness binds the right tensor's layout parameters as
`_right_stride` / `_right_offset` and never uses them; the call to
`call_where_cond_strided` passes `(&cond_stride, cond_offset)` in the right
tensor's layout position. -/
def run_where_cond (shape : List ℕ) (cond : List ℕ)
    (condStride : List ℕ) (condOffset : ℕ)
    (left : List ℚ) (leftStride : List ℕ) (leftOffset : ℕ)
    (right : List ℚ) (rightStride : List ℕ) (rightOffset : ℕ) : List ℚ :=
  call_where_cond_strided shape cond condStride condOffset
    left leftStride leftOffset right condStride condOffset

/-- Modelled from the spec (section 4.5, Index-Select): the
`call_index_select` kernel over an embedding viewed as
`[leftSize, dimSize, rightSize]`: the output has `ids.length` slots along the
selection dimension and `output[l, j, r] = embedding[l, ids[j], r]`, both
sides in flat row-major addressing. -/
def call_index_select (embedding : List ℚ) (leftSize dimSize rightSize : ℕ)
    (ids : List ℕ) : List ℚ :=
  (List.range (leftSize * ids.length * rightSize)).map (fun i =>
    let l := i / (ids.length * rightSize)
    let j := (i / rightSize) % ids.length
    let r := i % rightSize
    embedding.getD ((l * dimSize + ids.getD j 0) * rightSize + r) 0)

/-- Modelled from the spec (section 4.5, Index-Add): the `ia_u32_f32`
scatter-accumulate kernel.  The destination is viewed as
`[leftSize, dstDimSize, rightSize]`; each output element keeps the caller's
pre-initialized value `dst[l, d, r]` plus the sum of `input[l, j, r]` over all
`j` with `ids[j] = d`, so repeated destination indices accumulate. -/
def call_index_add (ids : List ℕ) (input dst : List ℚ)
    (leftSize dstDimSize rightSize : ℕ) : List ℚ :=
  (List.range (leftSize * dstDimSize * rightSize)).map (fun i =>
    let l := i / (dstDimSize * rightSize)
    let d := (i / rightSize) % dstDimSize
    let r := i % rightSize
    dst.getD i 0 +
      (((List.range ids.length).filter (fun j => ids.getD j 0 = d)).map
        (fun j => input.getD ((l * ids.length + j) * rightSize + r) 0)).sum)

/-- Modelled from the spec (section 4.6, Strided Reduction): the
`call_reduce_strided` fast-sum kernel over a contiguous rank-1 input: the
input is partitioned into `outLength` contiguous groups of
`v.length / outLength` elements and each group is collapsed to its sum. -/
def call_reduce_strided_sum (v : List ℚ) (outLength : ℕ) : List ℚ :=
  let groupSize := v.length / outLength
  (List.range outLength).map (fun g => ((v.drop (g * groupSize)).take groupSize).sum)

/-- Modelled from the spec (section 4.8, Batched GEMM): the `call_gemm`
(`sgemm`) kernel.  Strides are `[batchStride, rowStride, 1]` triples and the
offsets are byte offsets into an `f32` (4-byte element) buffer, converted to
element offsets before batch-stride indexing:
`output[(bi*m+i)*n+j] = Σ_p lhs[lhsOff/4 + bi*ls0 + i*ls1 + p*ls2] *
rhs[rhsOff/4 + bi*rs0 + p*rs1 + j*rs2]`. -/
def call_gemm (lhs rhs : List ℚ) (b m n k : ℕ)
    (lhsStride : List ℕ) (lhsOffsetBytes : ℕ)
    (rhsStride : List ℕ) (rhsOffsetBytes : ℕ) : List ℚ :=
  (List.range (b * (m * n))).map (fun idx =>
    let bi := idx / (m * n)
    let i := (idx / n) % m
    let j := idx % n
    ((List.range k).map (fun p =>
      lhs.getD (lhsOffsetBytes / 4 + bi * lhsStride.getD 0 0 + i * lhsStride.getD 1 0
          + p * lhsStride.getD 2 0) 0 *
      rhs.getD (rhsOffsetBytes / 4 + bi * rhsStride.getD 0 0 + p * rhsStride.getD 1 0
          + j * rhsStride.getD 2 0) 0)).sum)

/-- Naive triple-loop matrix-multiplication reference, following the spec's
testable-property wording ("GEMM against a naive triple-loop reference"):
`out[i*n+j] = Σ_p lhs[i*k+p] * rhs[p*n+j]` for one `(m,k) x (k,n)` product. -/
def naiveGemm (m n k : ℕ) (lhs rhs : List ℚ) : List ℚ :=
  (List.range (m * n)).map (fun idx =>
    let i := idx / n
    let j := idx % n
    ((List.range k).map (fun p => lhs.getD (i * k + p) 0 * rhs.getD (p * n + j) 0)).sum)

/-- Maximum of a list of reals (the `m = max(row)` of the softmax spec);
for a nonempty list this is the list's maximum. -/
def listMax (l : List ℝ) : ℝ :=
  l.foldl max (l.headD 0)

/-- Modelled from the spec (section 4.6, Softmax): one softmax row:
`m = max(row)`, then `output[k] = exp(row[k] - m) / Σ_j exp(row[j] - m)`. -/
noncomputable def softmaxRow (row : List ℝ) : List ℝ :=
  row.map (fun x => Real.exp (x - listMax row) /
    (row.map (fun y => Real.exp (y - listMax row))).sum)

/-- Modelled from the spec (section 4.6): the `call_last_softmax` kernel:
softmax applied row-wise over the last dimension of size `lastDim`, the rows
being the consecutive `lastDim`-element chunks of the flat input. -/
noncomputable def call_last_softmax (v : List ℝ) (lastDim : ℕ) : List ℝ :=
  ((List.range (v.length / lastDim)).map
    (fun i => softmaxRow ((v.drop (i * lastDim)).take lastDim))).flatten

/-! ### Helper lemmas on lists and flat addressing -/

theorem getD_map_range {α : Type} (f : ℕ → α) (d : α) {n i : ℕ} (h : i < n) :
    ((List.range n).map f).getD i d = f i := by
  have hi : i < ((List.range n).map f).length := by simpa using h
  rw [List.getD_eq_getElem _ _ hi]
  simp

theorem getD_map {α β : Type} (f : α → β) (l : List α) (d : β) (d' : α) {i : ℕ}
    (h : i < l.length) :
    (l.map f).getD i d = f (l.getD i d') := by
  have hi : i < (l.map f).length := by simpa using h
  rw [List.getD_eq_getElem _ _ hi, List.getD_eq_getElem _ _ h]
  simp

theorem map_getD_range {α : Type} (l : List α) (d : α) :
    (List.range l.length).map (fun i => l.getD i d) = l := by
  apply List.ext_getElem
  · simp
  · intro i h1 h2
    have : i < l.length := by simpa using h2
    simp [List.getD_eq_getElem l d this, List.getElem?_eq_getElem this]

theorem getD_drop {α : Type} (l : List α) (m i : ℕ) (d : α) :
    (l.drop m).getD i d = l.getD (m + i) d := by
  simp [List.getD_eq_getD_get?, List.get?_eq_getElem?, List.getElem?_drop]

theorem getD_take {α : Type} (l : List α) {n i : ℕ} (h : i < n) (d : α) :
    (l.take n).getD i d = l.getD i d := by
  simp [List.getD_eq_getD_get?, List.get?_eq_getElem?, List.getElem?_take, h]

theorem flat_lt {l J j R r L : ℕ} (hl : l < L) (hj : j < J) (hr : r < R) :
    (l * J + j) * R + r < L * J * R := by
  have h1 : l * J + j + 1 ≤ L * J := by
    have : (l + 1) * J ≤ L * J := Nat.mul_le_mul_right J hl
    nlinarith
  calc (l * J + j) * R + r < (l * J + j) * R + R := by omega
    _ = (l * J + j + 1) * R := by ring
    _ ≤ (L * J) * R := Nat.mul_le_mul_right R h1

theorem decode_flat {l J j R r : ℕ} (hj : j < J) (hr : r < R) :
    ((l * J + j) * R + r) / (J * R) = l ∧
    (((l * J + j) * R + r) / R) % J = j ∧
    ((l * J + j) * R + r) % R = r := by
  have hR : 0 < R := by omega
  have hJR : 0 < J * R := Nat.mul_pos (by omega) (by omega)
  have e1 : (l * J + j) * R + r = (J * R) * l + (j * R + r) := by ring
  have lt1 : j * R + r < J * R := by
    calc j * R + r < j * R + R := by omega
      _ = (j + 1) * R := by ring
      _ ≤ J * R := Nat.mul_le_mul_right R hj
  have e2 : (l * J + j) * R + r = R * (l * J + j) + r := by ring
  refine ⟨?_, ?_, ?_⟩
  · rw [e1, Nat.mul_add_div hJR, Nat.div_eq_of_lt lt1, add_zero]
  · rw [e2, Nat.mul_add_div hR, Nat.div_eq_of_lt hr, add_zero]
    have e3 : l * J + j = J * l + j := by ring
    rw [e3, Nat.mul_add_mod, Nat.mod_eq_of_lt hj]
  · rw [e2, Nat.mul_add_mod, Nat.mod_eq_of_lt hr]

/-! ### C9: the test harness ignores the right tensor's layout arguments -/

/-- C9: `run_where_cond` ignores its right-tensor stride and offset parameters
entirely: for any two values of those arguments and otherwise identical inputs
the result is the same, because the condition tensor's stride and offset are
passed in place of the right tensor's in the call to
`call_where_cond_strided`. -/
theorem run_where_cond_ignores_right_layout (shape cond condStride : List ℕ)
    (condOffset : ℕ) (left : List ℚ) (leftStride : List ℕ) (leftOffset : ℕ)
    (right : List ℚ) (rs₁ rs₂ : List ℕ) (ro₁ ro₂ : ℕ) :
    run_where_cond shape cond condStride condOffset left leftStride leftOffset
        right rs₁ ro₁ =
      run_where_cond shape cond condStride condOffset left leftStride leftOffset
        right rs₂ ro₂ ∧
    run_where_cond shape cond condStride condOffset left leftStride leftOffset
        right rs₁ ro₁ =
      call_where_cond_strided shape cond condStride condOffset left leftStride
        leftOffset right condStride condOffset :=
  ⟨rfl, rfl⟩

theorem getD_range {n i : ℕ} (h : i < n) (d : ℕ) : (List.range n).getD i d = i := by
  rw [List.getD_eq_getElem _ _ (by simpa using h)]
  simp

/-! ### C6: conditional select -/

/-- C6: for every strided-addressed element `i` of the shared iteration shape,
`call_where_cond_strided` computes `output[i] = left[i] if cond[i] != 0 else
right[i]`, with `cond`, `left`, `right` each carrying their own strides and
offsets; for `cond=[0,1,0,0,1,1]`, `left=[1..6]`, `right=[-1..-6]` the output
is `[-1,2,-3,-4,5,6]`. -/
theorem where_cond_strided_spec :
    (∀ (shape cond condStride : List ℕ) (condOffset : ℕ)
        (left : List ℚ) (leftStride : List ℕ) (leftOffset : ℕ)
        (right : List ℚ) (rightStride : List ℕ) (rightOffset : ℕ) (i : ℕ),
      i < (enumIndices shape).length →
      (call_where_cond_strided shape cond condStride condOffset left leftStride
          leftOffset right rightStride rightOffset).getD i 0 =
        if cond.getD (condOffset + stridedIndex condStride ((enumIndices shape).getD i [])) 0 ≠ 0
        then left.getD (leftOffset + stridedIndex leftStride ((enumIndices shape).getD i [])) 0
        else right.getD (rightOffset + stridedIndex rightStride ((enumIndices shape).getD i [])) 0) ∧
    call_where_cond_strided [6] [0, 1, 0, 0, 1, 1] [1] 0 [1, 2, 3, 4, 5, 6] [1] 0
        [-1, -2, -3, -4, -5, -6] [1] 0 = [-1, 2, -3, -4, 5, 6] := by
  constructor
  · intro shape cond cs co left ls lo right rs ro i hi
    unfold call_where_cond_strided
    rw [getD_map _ _ _ [] hi]
  · decide

/-- Witness for C6, at element 1 of the test's where_cond instance. -/
theorem where_cond_strided_spec_witness :
    (call_where_cond_strided [6] [0, 1, 0, 0, 1, 1] [1] 0 [1, 2, 3, 4, 5, 6] [1] 0
        [-1, -2, -3, -4, -5, -6] [1] 0).getD 1 0 =
      if ([0, 1, 0, 0, 1, 1] : List ℕ).getD
            (0 + stridedIndex [1] ((enumIndices [6]).getD 1 [])) 0 ≠ 0
      then ([1, 2, 3, 4, 5, 6] : List ℚ).getD
            (0 + stridedIndex [1] ((enumIndices [6]).getD 1 [])) 0
      else ([-1, -2, -3, -4, -5, -6] : List ℚ).getD
            (0 + stridedIndex [1] ((enumIndices [6]).getD 1 [])) 0 :=
  where_cond_strided_spec.1 [6] [0, 1, 0, 0, 1, 1] [1] 0 [1, 2, 3, 4, 5, 6] [1] 0
    [-1, -2, -3, -4, -5, -6] [1] 0 1 (by decide)

/-! ### C2: strided sum reduction -/

/-- C2: for every input and every `outLength` dividing its length, the strided
sum reduction returns `outLength` values, the `g`-th equal to the serial
left-to-right sum of the `g`-th contiguous group of `length / outLength`
elements; with `outLength = 1` it returns the full sum; `[1,2,3,4,5,6]` gives
`[6, 15]` at `outLength = 2` and `[21]` at `outLength = 1`. -/
theorem reduce_strided_sum_spec :
    (∀ (v : List ℚ) (outLength : ℕ), 0 < outLength → outLength ∣ v.length →
      (call_reduce_strided_sum v outLength).length = outLength ∧
      ∀ g, g < outLength →
        (call_reduce_strided_sum v outLength).getD g 0 =
          ((v.drop (g * (v.length / outLength))).take (v.length / outLength)).foldl
            (· + ·) 0) ∧
    (∀ v : List ℚ, call_reduce_strided_sum v 1 = [v.foldl (· + ·) 0]) ∧
    call_reduce_strided_sum [1, 2, 3, 4, 5, 6] 2 = [6, 15] ∧
    call_reduce_strided_sum [1, 2, 3, 4, 5, 6] 1 = [21] := by
  refine ⟨?_, ?_, by norm_num [call_reduce_strided_sum, List.range_succ],
    by norm_num [call_reduce_strided_sum, List.range_succ]⟩
  · intro v outLength _h1 _h2
    constructor
    · simp [call_reduce_strided_sum]
    · intro g hg
      unfold call_reduce_strided_sum
      rw [getD_map_range _ _ hg, List.sum_eq_foldl]
  · intro v
    unfold call_reduce_strided_sum
    have h1 : List.range 1 = [0] := by decide
    simp [List.sum_eq_foldl, h1, List.take_length]

/-- Witness for C2, at group 0 of the test's `out_length = 2` instance. -/
theorem reduce_strided_sum_spec_witness :
    (call_reduce_strided_sum [1, 2, 3, 4, 5, 6] 2).length = 2 ∧
    (call_reduce_strided_sum [1, 2, 3, 4, 5, 6] 2).getD 0 0 =
      ((([1, 2, 3, 4, 5, 6] : List ℚ).drop
          (0 * (([1, 2, 3, 4, 5, 6] : List ℚ).length / 2))).take
        (([1, 2, 3, 4, 5, 6] : List ℚ).length / 2)).foldl (· + ·) 0 :=
  ⟨(reduce_strided_sum_spec.1 [1, 2, 3, 4, 5, 6] 2 (by norm_num) (by decide)).1,
   (reduce_strided_sum_spec.1 [1, 2, 3, 4, 5, 6] 2 (by norm_num) (by decide)).2 0
     (by norm_num)⟩

/-! ### C3: index-select -/

/-- C3: for every embedding viewed as `[leftSize, dimSize, rightSize]` and ids
with values in `[0, dimSize)`, `call_index_select` produces an output of
dimension-`dim` size `ids.length` with `output[l, j, r] = embedding[l, ids[j], r]`;
shape `[5,2]`, ids `[0,4,2]`, dim 0 yields `[1,2,9,10,5,6]`, and shape `[5,2]`,
ids `[0,1,0]`, dim 1 yields `[1,2,1,3,4,3,5,6,5,7,8,7,9,10,9]`. -/
theorem index_select_spec :
    (∀ (emb : List ℚ) (leftSize dimSize rightSize : ℕ) (ids : List ℕ) (l j r : ℕ),
      l < leftSize → j < ids.length → r < rightSize → ids.getD j 0 < dimSize →
      (call_index_select emb leftSize dimSize rightSize ids).length =
        leftSize * ids.length * rightSize ∧
      (call_index_select emb leftSize dimSize rightSize ids).getD
          ((l * ids.length + j) * rightSize + r) 0 =
        emb.getD ((l * dimSize + ids.getD j 0) * rightSize + r) 0) ∧
    call_index_select [1, 2, 3, 4, 5, 6, 7, 8, 9, 10] 1 5 2 [0, 4, 2] =
      [1, 2, 9, 10, 5, 6] ∧
    call_index_select [1, 2, 3, 4, 5, 6, 7, 8, 9, 10] 5 2 1 [0, 1, 0] =
      [1, 2, 1, 3, 4, 3, 5, 6, 5, 7, 8, 7, 9, 10, 9] := by
  refine ⟨?_, by norm_num [call_index_select, List.range_succ],
    by norm_num [call_index_select, List.range_succ]⟩
  intro emb leftSize dimSize rightSize ids l j r hl hj hr _hid
  constructor
  · simp [call_index_select]
  · unfold call_index_select
    have hlt : (l * ids.length + j) * rightSize + r < leftSize * ids.length * rightSize :=
      flat_lt hl hj hr
    rw [getD_map_range _ _ hlt]
    obtain ⟨h1, h2, h3⟩ := decode_flat (l := l) hj hr
    simp only [h1, h2, h3]

/-- Witness for C3, at `(l,j,r) = (0,1,0)` of the test's dim-0 instance. -/
theorem index_select_spec_witness :
    (call_index_select [1, 2, 3, 4, 5, 6, 7, 8, 9, 10] 1 5 2 [0, 4, 2]).length =
      1 * ([0, 4, 2] : List ℕ).length * 2 ∧
    (call_index_select [1, 2, 3, 4, 5, 6, 7, 8, 9, 10] 1 5 2 [0, 4, 2]).getD
        ((0 * ([0, 4, 2] : List ℕ).length + 1) * 2 + 0) 0 =
      ([1, 2, 3, 4, 5, 6, 7, 8, 9, 10] : List ℚ).getD
        ((0 * 5 + ([0, 4, 2] : List ℕ).getD 1 0) * 2 + 0) 0 :=
  index_select_spec.1 [1, 2, 3, 4, 5, 6, 7, 8, 9, 10] 1 5 2 [0, 4, 2] 0 1 0
    (by norm_num) (by decide) (by norm_num) (by decide)

/-! ### C8: index-select with the identity index sequence -/

/-- C8: for every embedding of shape `[dimSize, rightSize]` selected along
dimension 0, `call_index_select` with the identity index sequence
`[0, 1, ..., dimSize - 1]` reproduces the original embedding. -/
theorem index_select_identity (emb : List ℚ) (dimSize rightSize : ℕ)
    (h : emb.length = dimSize * rightSize) :
    call_index_select emb 1 dimSize rightSize (List.range dimSize) = emb := by
  unfold call_index_select
  have hlen : 1 * (List.range dimSize).length * rightSize = emb.length := by
    simp [h]
  rw [hlen]
  conv_rhs => rw [← map_getD_range emb 0]
  apply List.map_congr_left
  intro i hi
  have hi' : i < emb.length := List.mem_range.mp hi
  have hiDR : i < dimSize * rightSize := by rw [← h]; exact hi'
  have hR : 0 < rightSize := by
    rcases Nat.eq_zero_or_pos rightSize with h0 | h0
    · rw [h0, Nat.mul_zero] at hiDR; omega
    · exact h0
  have hdiv : i / rightSize < dimSize := (Nat.div_lt_iff_lt_mul hR).mpr hiDR
  have haddr : i / rightSize * rightSize + i % rightSize = i := by
    rw [mul_comm]
    exact Nat.div_add_mod i rightSize
  simp only [List.length_range, Nat.div_eq_of_lt hiDR, Nat.mod_eq_of_lt hdiv,
    getD_range hdiv, Nat.zero_mul, Nat.zero_add, haddr]

/-- Witness for C8, on the 2x2 embedding `[1,2,3,4]`. -/
theorem index_select_identity_witness :
    call_index_select [1, 2, 3, 4] 1 2 2 (List.range 2) = [1, 2, 3, 4] :=
  index_select_identity [1, 2, 3, 4] 2 2 (by decide)

/-! ### C4: index-add (scatter-accumulate) -/

/-- C4: for every input of shape `[leftSize, ids.length, rightSize]` and
pre-initialized output with dimension-`dim` size `dstDimSize`, the index-add
kernel performs `output[l, ids[j], r] += input[l, j, r]` over all `j`: it adds
to the output's prior contents (positions no `j` targets keep their value) and
contributions of repeated destination indices sum; input `[1..9]`, ids
`[0,4,2]`, output pre-filled with fifteen `1.0` yields
`[2,3,4, 1,1,1, 8,9,10, 1,1,1, 5,6,7]`. -/
theorem index_add_spec :
    (∀ (ids : List ℕ) (input dst : List ℚ) (leftSize dstDimSize rightSize l d r : ℕ),
      l < leftSize → d < dstDimSize → r < rightSize →
      (call_index_add ids input dst leftSize dstDimSize rightSize).getD
          ((l * dstDimSize + d) * rightSize + r) 0 =
        dst.getD ((l * dstDimSize + d) * rightSize + r) 0 +
          (((List.range ids.length).filter (fun j => ids.getD j 0 = d)).map
            (fun j => input.getD ((l * ids.length + j) * rightSize + r) 0)).sum) ∧
    (∀ (ids : List ℕ) (input dst : List ℚ) (leftSize dstDimSize rightSize l d r : ℕ),
      l < leftSize → d < dstDimSize → r < rightSize →
      (∀ j, j < ids.length → ids.getD j 0 ≠ d) →
      (call_index_add ids input dst leftSize dstDimSize rightSize).getD
          ((l * dstDimSize + d) * rightSize + r) 0 =
        dst.getD ((l * dstDimSize + d) * rightSize + r) 0) ∧
    call_index_add [0, 4, 2] [1, 2, 3, 4, 5, 6, 7, 8, 9] (List.replicate 15 1) 1 5 3 =
      [2, 3, 4, 1, 1, 1, 8, 9, 10, 1, 1, 1, 5, 6, 7] := by
  have main : ∀ (ids : List ℕ) (input dst : List ℚ)
      (leftSize dstDimSize rightSize l d r : ℕ),
      l < leftSize → d < dstDimSize → r < rightSize →
      (call_index_add ids input dst leftSize dstDimSize rightSize).getD
          ((l * dstDimSize + d) * rightSize + r) 0 =
        dst.getD ((l * dstDimSize + d) * rightSize + r) 0 +
          (((List.range ids.length).filter (fun j => ids.getD j 0 = d)).map
            (fun j => input.getD ((l * ids.length + j) * rightSize + r) 0)).sum := by
    intro ids input dst leftSize dstDimSize rightSize l d r hl hd hr
    unfold call_index_add
    rw [getD_map_range _ _ (flat_lt hl hd hr)]
    obtain ⟨h1, h2, h3⟩ := decode_flat (l := l) hd hr
    simp only [h1, h2, h3]
  refine ⟨main, ?_,
    by norm_num [call_index_add, List.range_succ, List.replicate]⟩
  intro ids input dst leftSize dstDimSize rightSize l d r hl hd hr hnone
  rw [main ids input dst leftSize dstDimSize rightSize l d r hl hd hr]
  have hfilter : (List.range ids.length).filter (fun j => ids.getD j 0 = d) = [] := by
    simp only [List.filter_eq_nil_iff, List.mem_range, decide_eq_true_eq]
    intro j hj
    exact hnone j hj
  rw [hfilter]
  simp

/-- Witness for C4, at `(l,d,r) = (0,4,0)` (destination row targeted by
`ids[1]`) and untouched `(l,d,r) = (0,1,0)` of the test's instance. -/
theorem index_add_spec_witness :
    (call_index_add [0, 4, 2] [1, 2, 3, 4, 5, 6, 7, 8, 9] (List.replicate 15 1)
        1 5 3).getD ((0 * 5 + 4) * 3 + 0) 0 =
      (List.replicate 15 (1 : ℚ)).getD ((0 * 5 + 4) * 3 + 0) 0 +
        (((List.range ([0, 4, 2] : List ℕ).length).filter
            (fun j => ([0, 4, 2] : List ℕ).getD j 0 = 4)).map
          (fun j => ([1, 2, 3, 4, 5, 6, 7, 8, 9] : List ℚ).getD
            ((0 * ([0, 4, 2] : List ℕ).length + j) * 3 + 0) 0)).sum ∧
    (call_index_add [0, 4, 2] [1, 2, 3, 4, 5, 6, 7, 8, 9] (List.replicate 15 1)
        1 5 3).getD ((0 * 5 + 1) * 3 + 0) 0 =
      (List.replicate 15 (1 : ℚ)).getD ((0 * 5 + 1) * 3 + 0) 0 :=
  ⟨index_add_spec.1 [0, 4, 2] [1, 2, 3, 4, 5, 6, 7, 8, 9] (List.replicate 15 1)
      1 5 3 0 4 0 (by norm_num) (by norm_num) (by norm_num),
   index_add_spec.2.1 [0, 4, 2] [1, 2, 3, 4, 5, 6, 7, 8, 9] (List.replicate 15 1)
      1 5 3 0 1 0 (by norm_num) (by norm_num) (by norm_num) (by decide)⟩

/-! ### C5: batched GEMM -/

/-- C5: `call_gemm` computes `output[b] = lhs[b] @ rhs[b]` element-for-element
(the general strided formula below), agrees with a naive triple-loop reference
on canonical strides, and treats a `batch = 1` call with a non-zero byte
offset into a larger shared buffer exactly as indexing the corresponding
batch of that buffer — offset and batch-stride addressing compose linearly;
the test's three instances, including `(b,m,n,k) = (1,2,4,3)` with `rhs`
offset past the first 12 elements giving `[56,59,62,65, 200,212,224,236]`,
evaluate as asserted. -/
theorem gemm_spec :
    (∀ (lhs rhs : List ℚ) (b m n k : ℕ) (ls : List ℕ) (lo : ℕ) (rs : List ℕ)
        (ro : ℕ) (bi i j : ℕ), bi < b → i < m → j < n →
      (call_gemm lhs rhs b m n k ls lo rs ro).getD ((bi * m + i) * n + j) 0 =
        ((List.range k).map (fun p =>
          lhs.getD (lo / 4 + bi * ls.getD 0 0 + i * ls.getD 1 0 + p * ls.getD 2 0) 0 *
          rhs.getD (ro / 4 + bi * rs.getD 0 0 + p * rs.getD 1 0 + j * rs.getD 2 0) 0)).sum) ∧
    (∀ (lhs rhs : List ℚ) (m n k : ℕ),
      call_gemm lhs rhs 1 m n k [m * k, k, 1] 0 [n * k, n, 1] 0 =
        naiveGemm m n k lhs rhs) ∧
    (∀ (lhs rhs : List ℚ) (m n k c : ℕ),
      call_gemm lhs rhs 1 m n k [m * k, k, 1] 0 [n * k, n, 1] (4 * (c * (n * k))) =
        naiveGemm m n k lhs (rhs.drop (c * (n * k)))) ∧
    call_gemm [0, 1, 2, 3, 4, 5] [0, 1, 2, 3, 4, 5, 6, 7, 8, 9, 10, 11]
        1 2 4 3 [6, 3, 1] 0 [12, 4, 1] 0 = [20, 23, 26, 29, 56, 68, 80, 92] ∧
    call_gemm [0, 1, 2, 3, 4, 5, 6, 7, 8, 9, 10, 11]
        [0, 1, 2, 3, 4, 5, 6, 7, 8, 9, 10, 11, 12, 13, 14, 15, 16, 17, 18, 19, 20, 21, 22, 23]
        2 2 4 3 [6, 3, 1] 0 [12, 4, 1] 0 =
      [20, 23, 26, 29, 56, 68, 80, 92, 344, 365, 386, 407, 488, 518, 548, 578] ∧
    call_gemm [0, 1, 2, 3, 4, 5, 6, 7, 8, 9, 10, 11]
        [0, 1, 2, 3, 4, 5, 6, 7, 8, 9, 10, 11, 12, 13, 14, 15, 16, 17, 18, 19, 20, 21, 22, 23]
        1 2 4 3 [6, 3, 1] 0 [12, 4, 1] (12 * 4) =
      [56, 59, 62, 65, 200, 212, 224, 236] := by
  have comp : ∀ (lhs rhs : List ℚ) (m n k c : ℕ),
      call_gemm lhs rhs 1 m n k [m * k, k, 1] 0 [n * k, n, 1] (4 * (c * (n * k))) =
        naiveGemm m n k lhs (rhs.drop (c * (n * k))) := by
    intro lhs rhs m n k c
    unfold call_gemm naiveGemm
    rw [one_mul]
    apply List.map_congr_left
    intro idx hidx
    have hmn : idx < m * n := List.mem_range.mp hidx
    have hn : 0 < n := by
      rcases Nat.eq_zero_or_pos n with h0 | h0
      · rw [h0, Nat.mul_zero] at hmn; omega
      · exact h0
    have h0 : idx / (m * n) = 0 := Nat.div_eq_of_lt hmn
    have hdm : idx / n < m := (Nat.div_lt_iff_lt_mul hn).mpr hmn
    have hoff : 4 * (c * (n * k)) / 4 = c * (n * k) :=
      Nat.mul_div_cancel_left _ (by norm_num)
    simp only [h0, Nat.mod_eq_of_lt hdm, hoff, Nat.zero_mul, Nat.zero_add,
      Nat.add_zero, Nat.zero_div, List.getD_cons_zero, List.getD_cons_succ,
      mul_one, getD_drop]
    congr 1
    apply List.map_congr_left
    intro p _
    rw [Nat.add_assoc]
  refine ⟨?_, ?_, comp,
    by norm_num [call_gemm, List.range_succ],
    by norm_num [call_gemm, List.range_succ],
    by norm_num [call_gemm, List.range_succ]⟩
  · intro lhs rhs b m n k ls lo rs ro bi i j hb hi hj
    unfold call_gemm
    have hlt : (bi * m + i) * n + j < b * (m * n) := by
      have h := flat_lt hb hi hj
      rwa [Nat.mul_assoc] at h
    rw [getD_map_range _ _ hlt]
    obtain ⟨h1, h2, h3⟩ := decode_flat (l := bi) hi hj
    simp only [h1, h2, h3]
  · intro lhs rhs m n k
    have h := comp lhs rhs m n k 0
    simpa using h

/-- Witness for C5, at output element `(bi,i,j) = (0,0,0)` of the test's
first gemm instance. -/
theorem gemm_spec_witness :
    (call_gemm [0, 1, 2, 3, 4, 5] [0, 1, 2, 3, 4, 5, 6, 7, 8, 9, 10, 11]
        1 2 4 3 [6, 3, 1] 0 [12, 4, 1] 0).getD ((0 * 2 + 0) * 4 + 0) 0 =
      ((List.range 3).map (fun p =>
        ([0, 1, 2, 3, 4, 5] : List ℚ).getD
          (0 / 4 + 0 * ([6, 3, 1] : List ℕ).getD 0 0 + 0 * ([6, 3, 1] : List ℕ).getD 1 0
            + p * ([6, 3, 1] : List ℕ).getD 2 0) 0 *
        ([0, 1, 2, 3, 4, 5, 6, 7, 8, 9, 10, 11] : List ℚ).getD
          (0 / 4 + 0 * ([12, 4, 1] : List ℕ).getD 0 0 + p * ([12, 4, 1] : List ℕ).getD 1 0
            + 0 * ([12, 4, 1] : List ℕ).getD 2 0) 0)).sum :=
  gemm_spec.1 [0, 1, 2, 3, 4, 5] [0, 1, 2, 3, 4, 5, 6, 7, 8, 9, 10, 11]
    1 2 4 3 [6, 3, 1] 0 [12, 4, 1] 0 0 0 0 (by norm_num) (by norm_num) (by norm_num)

/-! ### C10: gemm offsets are byte offsets -/

/-- C10: the offset arguments of `call_gemm` are byte offsets, not element
counts: passing `12 * 4` starts `rhs` at its 12th `f32` element (the output
then equals lhs batch 0 times the `(k,n)` block 12 elements into the rhs
buffer), whereas passing `12` does not. -/
theorem gemm_offsets_bytes :
    call_gemm [0, 1, 2, 3, 4, 5, 6, 7, 8, 9, 10, 11]
        [0, 1, 2, 3, 4, 5, 6, 7, 8, 9, 10, 11, 12, 13, 14, 15, 16, 17, 18, 19, 20, 21, 22, 23]
        1 2 4 3 [6, 3, 1] 0 [12, 4, 1] (12 * 4) =
      [56, 59, 62, 65, 200, 212, 224, 236] ∧
    call_gemm [0, 1, 2, 3, 4, 5, 6, 7, 8, 9, 10, 11]
        [0, 1, 2, 3, 4, 5, 6, 7, 8, 9, 10, 11, 12, 13, 14, 15, 16, 17, 18, 19, 20, 21, 22, 23]
        1 2 4 3 [6, 3, 1] 0 [12, 4, 1] (12 * 4) =
      naiveGemm 2 4 3 [0, 1, 2, 3, 4, 5, 6, 7, 8, 9, 10, 11]
        (([0, 1, 2, 3, 4, 5, 6, 7, 8, 9, 10, 11, 12, 13, 14, 15, 16, 17, 18, 19, 20, 21,
          22, 23] : List ℚ).drop 12) ∧
    call_gemm [0, 1, 2, 3, 4, 5, 6, 7, 8, 9, 10, 11]
        [0, 1, 2, 3, 4, 5, 6, 7, 8, 9, 10, 11, 12, 13, 14, 15, 16, 17, 18, 19, 20, 21, 22, 23]
        1 2 4 3 [6, 3, 1] 0 [12, 4, 1] 12 ≠
      naiveGemm 2 4 3 [0, 1, 2, 3, 4, 5, 6, 7, 8, 9, 10, 11]
        (([0, 1, 2, 3, 4, 5, 6, 7, 8, 9, 10, 11, 12, 13, 14, 15, 16, 17, 18, 19, 20, 21,
          22, 23] : List ℚ).drop 12) :=
  ⟨by norm_num [call_gemm, List.range_succ],
   by norm_num [call_gemm, naiveGemm, List.range_succ],
   by norm_num [call_gemm, naiveGemm, List.range_succ]⟩

/-! ### C7: strided vs contiguous variants -/

theorem cos_two_ne_cos_four : Real.cos 2 ≠ Real.cos 4 := by
  have hπ3 : (3 : ℝ) < Real.pi := Real.pi_gt_three
  have hπ4 : Real.pi ≤ 4 := Real.pi_le_four
  have h4 : Real.cos 4 = Real.cos (2 * Real.pi - 4) := by
    rw [Real.cos_two_pi_sub]
  have hlt : Real.cos (2 * Real.pi - 4) < Real.cos 2 := by
    apply Real.strictAntiOn_cos ⟨by linarith, by linarith⟩ ⟨by linarith, by linarith⟩
      (by linarith)
  intro h
  rw [h4] at h
  linarith

/-- Counterexample to C7 as stated: unary cosine over `[1..6]` run strided
with shape `[3,2]` and transposed strides `[1,3]` does NOT give the same
output as the contiguous run — it writes the permuted sequence
`[cos 1, cos 4, cos 2, cos 5, cos 3, cos 6]` (exactly what the test at
`tests.rs:167-181` asserts), which differs from the contiguous
`[cos 1, ..., cos 6]` at position 1. -/
theorem cos_strided_transposed_differs :
    call_unary_strided Real.cos 0 [1, 2, 3, 4, 5, 6] [3, 2] [1, 3] 0 ≠
      call_unary_contiguous Real.cos [1, 2, 3, 4, 5, 6] := by
  have hs : call_unary_strided Real.cos 0 [1, 2, 3, 4, 5, 6] [3, 2] [1, 3] 0 =
      [Real.cos 1, Real.cos 4, Real.cos 2, Real.cos 5, Real.cos 3, Real.cos 6] := rfl
  have hc : call_unary_contiguous Real.cos [1, 2, 3, 4, 5, 6] =
      [Real.cos 1, Real.cos 2, Real.cos 3, Real.cos 4, Real.cos 5, Real.cos 6] := rfl
  rw [hs, hc]
  simp only [ne_eq, List.cons.injEq, not_and]
  intro _ h2
  exact absurd h2.symm cos_two_ne_cos_four

/-- C7 (amended): for any unary operation `f` over six elements, the strided
variant equals the contiguous variant for the stride/offset encodings that
enumerate the same addresses in row-major order (`[6]`/`[1]` and
`[3,2]`/`[2,1]`); under transposed strides `[1,3]` it instead writes the
transposed traversal `[f v₀, f v₃, f v₁, f v₄, f v₂, f v₅]`. -/
theorem strided_contiguous_equiv {α : Type} (f : α → α) (d a₁ a₂ a₃ a₄ a₅ a₆ : α) :
    call_unary_strided f d [a₁, a₂, a₃, a₄, a₅, a₆] [6] [1] 0 =
      call_unary_contiguous f [a₁, a₂, a₃, a₄, a₅, a₆] ∧
    call_unary_strided f d [a₁, a₂, a₃, a₄, a₅, a₆] [3, 2] [2, 1] 0 =
      call_unary_contiguous f [a₁, a₂, a₃, a₄, a₅, a₆] ∧
    call_unary_strided f d [a₁, a₂, a₃, a₄, a₅, a₆] [3, 2] [1, 3] 0 =
      [f a₁, f a₄, f a₂, f a₅, f a₃, f a₆] :=
  ⟨rfl, rfl, rfl⟩

/-! ### C1: last-dimension softmax -/

theorem sum_map_div (l : List ℝ) (c : ℝ) : (l.map (· / c)).sum = l.sum / c := by
  induction l with
  | nil => simp
  | cons a t ih => simp [add_div, ih]

theorem foldl_max_or (t : List ℝ) : ∀ a : ℝ, t.foldl max a = a ∨ t.foldl max a ∈ t := by
  induction t with
  | nil => intro a; left; rfl
  | cons b t ih =>
    intro a
    rcases ih (max a b) with h | h
    · rw [List.foldl_cons, h]
      rcases max_choice a b with h' | h'
      · left; exact h'
      · right; rw [h']; exact List.mem_cons_self b t
    · right
      rw [List.foldl_cons]
      exact List.mem_cons_of_mem b h

theorem le_foldl_max (t : List ℝ) : ∀ a x : ℝ, x = a ∨ x ∈ t → x ≤ t.foldl max a := by
  induction t with
  | nil =>
    intro a x h
    rcases h with rfl | h
    · exact le_refl x
    · simp at h
  | cons b t ih =>
    intro a x h
    rw [List.foldl_cons]
    rcases h with rfl | h
    · exact le_trans (le_max_left x b) (ih (max x b) _ (Or.inl rfl))
    · rcases List.mem_cons.mp h with rfl | h
      · exact le_trans (le_max_right a x) (ih (max a x) _ (Or.inl rfl))
      · exact ih (max a b) x (Or.inr h)

theorem listMax_mem {row : List ℝ} (h : row ≠ []) : listMax row ∈ row := by
  cases row with
  | nil => exact absurd rfl h
  | cons a t =>
    unfold listMax
    simp only [List.headD_cons, List.foldl_cons, max_self]
    rcases foldl_max_or t a with h' | h'
    · rw [h']; exact List.mem_cons_self a t
    · exact List.mem_cons_of_mem a h'

theorem le_listMax {row : List ℝ} {x : ℝ} (hx : x ∈ row) : x ≤ listMax row := by
  cases row with
  | nil => simp at hx
  | cons a t =>
    unfold listMax
    simp only [List.headD_cons, List.foldl_cons, max_self]
    rcases List.mem_cons.mp hx with rfl | h
    · exact le_foldl_max t _ _ (Or.inl rfl)
    · exact le_foldl_max t _ _ (Or.inr h)

theorem softmaxRow_sum_one {row : List ℝ} (h : row ≠ []) : (softmaxRow row).sum = 1 := by
  have hpos : 0 < (row.map (fun y => Real.exp (y - listMax row))).sum := by
    cases row with
    | nil => exact absurd rfl h
    | cons a t =>
      simp only [List.map_cons, List.sum_cons]
      have h1 : 0 ≤ (t.map (fun y => Real.exp (y - listMax (a :: t)))).sum := by
        apply List.sum_nonneg
        intro y hy
        simp only [List.mem_map] at hy
        obtain ⟨x, _, rfl⟩ := hy
        exact le_of_lt (Real.exp_pos _)
      have h2 := Real.exp_pos (a - listMax (a :: t))
      linarith
  unfold softmaxRow
  have hrw : row.map (fun x => Real.exp (x - listMax row) /
        (row.map (fun y => Real.exp (y - listMax row))).sum) =
      (row.map (fun x => Real.exp (x - listMax row))).map
        (· / (row.map (fun y => Real.exp (y - listMax row))).sum) := by
    rw [List.map_map]
    rfl
  rw [hrw, sum_map_div, div_self (ne_of_gt hpos)]

theorem flatten_drop_take {α : Type} (n : ℕ) :
    ∀ (L : List (List α)) (i : ℕ), (∀ row ∈ L, row.length = n) → i < L.length →
      (L.flatten.drop (i * n)).take n = L.getD i [] := by
  intro L
  induction L with
  | nil =>
    intro i _ hi
    simp at hi
  | cons row rest ih =>
    intro i hrows hi
    cases i with
    | zero =>
      rw [List.flatten_cons, Nat.zero_mul, List.drop_zero, List.getD_cons_zero]
      exact List.take_left' (hrows row (List.mem_cons_self row rest))
    | succ i =>
      have hlen : row.length = n := hrows row (List.mem_cons_self row rest)
      rw [List.flatten_cons, List.getD_cons_succ]
      have hmul : (i + 1) * n = n + i * n := by ring
      rw [hmul, ← List.drop_drop, List.drop_left' hlen]
      exact ih i (fun r hr => hrows r (List.mem_cons_of_mem row hr))
        (Nat.lt_of_succ_lt_succ hi)

theorem softmaxRow_length (row : List ℝ) : (softmaxRow row).length = row.length := by
  unfold softmaxRow
  rw [List.length_map]

theorem call_last_softmax_row (v : List ℝ) (n : ℕ) (hn : 0 < n) (i : ℕ)
    (hi : (i + 1) * n ≤ v.length) :
    ((call_last_softmax v n).drop (i * n)).take n =
      softmaxRow ((v.drop (i * n)).take n) := by
  unfold call_last_softmax
  have hiq : i < v.length / n := by
    have h1 : i + 1 ≤ v.length / n := (Nat.le_div_iff_mul_le hn).mpr hi
    omega
  have hrows : ∀ row ∈ (List.range (v.length / n)).map
      (fun j => softmaxRow ((v.drop (j * n)).take n)), row.length = n := by
    intro row hrow
    simp only [List.mem_map, List.mem_range] at hrow
    obtain ⟨j, hj, rfl⟩ := hrow
    have hjn : (j + 1) * n ≤ v.length := by
      calc (j + 1) * n ≤ v.length / n * n := Nat.mul_le_mul_right n hj
        _ ≤ v.length := Nat.div_mul_le_self _ _
    have hexp : (j + 1) * n = j * n + n := by ring
    rw [hexp] at hjn
    rw [softmaxRow_length, List.length_take, List.length_drop]
    omega
  rw [flatten_drop_take n _ i hrows (by simpa using hiq)]
  exact getD_map_range _ _ hiq

theorem abs_div_sub_lt {x S t ε : ℝ} (hS0 : 0 < S)
    (h1 : (t - ε) * S < x) (h2 : x < (t + ε) * S) : |x / S - t| < ε := by
  have hu : x / S < t + ε := (div_lt_iff₀ hS0).mpr h2
  have hl : t - ε < x / S := (lt_div_iff₀ hS0).mpr h1
  rw [abs_sub_lt_iff]
  constructor <;> linarith

theorem foldl_max_replicate_zero : ∀ (k : ℕ) (a : ℝ), 0 ≤ a →
    (List.replicate k (0 : ℝ)).foldl max a = a := by
  intro k
  induction k with
  | zero => intro a _; rfl
  | succ k ih =>
    intro a ha
    rw [List.replicate_succ, List.foldl_cons, max_eq_left ha, ih a ha]

theorem listMax_spike : listMax ((20 : ℝ) :: List.replicate 4095 0) = 20 := by
  unfold listMax
  simp only [List.headD_cons, List.foldl_cons, max_self]
  exact foldl_max_replicate_zero 4095 20 (by norm_num)

theorem spike_exp_sum :
    ((((20 : ℝ) :: List.replicate 4095 0)).map (fun y => Real.exp (y - 20))).sum =
      1 + 4095 * Real.exp (-20) := by
  simp only [List.map_cons, List.map_replicate, List.sum_cons, List.sum_replicate,
    nsmul_eq_mul]
  norm_num [Real.exp_zero]

theorem getD_replicate {α : Type} {n i : ℕ} (a d : α) (h : i < n) :
    (List.replicate n a).getD i d = a := by
  rw [List.getD_eq_getElem _ _ (by simpa using h)]
  simp

theorem exp_neg_twenty_small : Real.exp (-20) < 1 / 100000000 := by
  have h20 : Real.exp (20 : ℝ) = Real.exp 1 ^ 20 := by
    rw [show (20 : ℝ) = ((20 : ℕ) : ℝ) * 1 by norm_num, Real.exp_nat_mul]
  have hgt : (100000000 : ℝ) < Real.exp 20 := by
    rw [h20]
    have h1 : (2.7 : ℝ) < Real.exp 1 := by
      have := Real.exp_one_gt_d9
      linarith
    calc (100000000 : ℝ) < (2.7 : ℝ) ^ 20 := by norm_num
      _ < Real.exp 1 ^ 20 := by
          apply pow_lt_pow_left h1 (by norm_num) (by norm_num)
  rw [Real.exp_neg]
  rw [show (1 : ℝ) / 100000000 = (100000000 : ℝ)⁻¹ by norm_num]
  exact inv_strictAnti₀ (by norm_num) hgt

theorem spike_row_length : ((20 : ℝ) :: List.replicate 4095 0).length = 4096 := by
  simp only [List.length_cons, List.length_replicate]

theorem spike_call :
    call_last_softmax ((List.replicate 200 ((20 : ℝ) :: List.replicate 4095 0)).flatten) 4096 =
      (List.replicate 200 (softmaxRow ((20 : ℝ) :: List.replicate 4095 0))).flatten := by
  unfold call_last_softmax
  have hlen : ((List.replicate 200 ((20 : ℝ) :: List.replicate 4095 0)).flatten).length =
      819200 := by
    rw [List.length_flatten]
    simp only [List.map_replicate, List.length_cons, List.length_replicate,
      List.sum_replicate, smul_eq_mul]
  rw [hlen]
  have h200 : (819200 : ℕ) / 4096 = 200 := by norm_num
  rw [h200]
  apply congrArg List.flatten
  have hrows : ∀ row ∈ List.replicate 200 ((20 : ℝ) :: List.replicate 4095 0),
      row.length = 4096 := by
    intro row hrow
    rw [List.eq_of_mem_replicate hrow]
    exact spike_row_length
  have hchunk : ∀ j, j < 200 →
      ((((List.replicate 200 ((20 : ℝ) :: List.replicate 4095 0)).flatten).drop
          (j * 4096)).take 4096) = (20 : ℝ) :: List.replicate 4095 0 := by
    intro j hj
    rw [flatten_drop_take 4096 _ j hrows (by rw [List.length_replicate]; exact hj)]
    exact getD_replicate _ _ hj
  have hrepl : (List.replicate 200 (softmaxRow ((20 : ℝ) :: List.replicate 4095 0))) =
      (List.range 200).map (fun _ => softmaxRow ((20 : ℝ) :: List.replicate 4095 0)) := by
    rw [List.map_const', List.length_range]
  rw [hrepl]
  apply List.map_congr_left
  intro j hj
  rw [hchunk j (List.mem_range.mp hj)]

theorem spike_chunk (i : ℕ) (hi : i < 200) :
    ((((List.replicate 200 (softmaxRow ((20 : ℝ) :: List.replicate 4095 0))).flatten).drop
        (i * 4096)).take 4096) = softmaxRow ((20 : ℝ) :: List.replicate 4095 0) := by
  rw [flatten_drop_take 4096 _ i
    (by
      intro row hrow
      rw [List.eq_of_mem_replicate hrow, softmaxRow_length]
      exact spike_row_length)
    (by rw [List.length_replicate]; exact hi)]
  exact getD_replicate _ _ hi

theorem spike_getD_zero (i : ℕ) (hi : i < 200) :
    ((List.replicate 200 (softmaxRow ((20 : ℝ) :: List.replicate 4095 0))).flatten).getD
        (i * 4096) 0 =
      Real.exp (0 : ℝ) / (1 + 4095 * Real.exp (-20)) := by
  have h1 : ((List.replicate 200 (softmaxRow ((20 : ℝ) :: List.replicate 4095 0))).flatten).getD
      (i * 4096) 0 = (softmaxRow ((20 : ℝ) :: List.replicate 4095 0)).getD 0 0 := by
    have e1 := getD_take (((List.replicate 200 (softmaxRow ((20 : ℝ) ::
      List.replicate 4095 0))).flatten).drop (i * 4096)) (show (0 : ℕ) < 4096 by norm_num) (0 : ℝ)
    have e2 := getD_drop ((List.replicate 200 (softmaxRow ((20 : ℝ) ::
      List.replicate 4095 0))).flatten) (i * 4096) 0 (0 : ℝ)
    rw [e2, Nat.add_zero] at e1
    rw [← e1, spike_chunk i hi]
  rw [h1]
  have h2 : (softmaxRow ((20 : ℝ) :: List.replicate 4095 0)).getD 0 0 =
      Real.exp (20 - listMax ((20 : ℝ) :: List.replicate 4095 0)) /
        ((((20 : ℝ) :: List.replicate 4095 0)).map
          (fun y => Real.exp (y - listMax ((20 : ℝ) :: List.replicate 4095 0)))).sum := rfl
  rw [h2, listMax_spike, spike_exp_sum]
  norm_num

theorem spike_getD_one (i : ℕ) (hi : i < 200) :
    ((List.replicate 200 (softmaxRow ((20 : ℝ) :: List.replicate 4095 0))).flatten).getD
        (i * 4096 + 1) 0 =
      Real.exp (-20 : ℝ) / (1 + 4095 * Real.exp (-20)) := by
  have h1 : ((List.replicate 200 (softmaxRow ((20 : ℝ) :: List.replicate 4095 0))).flatten).getD
      (i * 4096 + 1) 0 = (softmaxRow ((20 : ℝ) :: List.replicate 4095 0)).getD 1 0 := by
    have e1 := getD_take (((List.replicate 200 (softmaxRow ((20 : ℝ) ::
      List.replicate 4095 0))).flatten).drop (i * 4096)) (show (1 : ℕ) < 4096 by norm_num) (0 : ℝ)
    have e2 := getD_drop ((List.replicate 200 (softmaxRow ((20 : ℝ) ::
      List.replicate 4095 0))).flatten) (i * 4096) 1 (0 : ℝ)
    rw [e2] at e1
    rw [← e1, spike_chunk i hi]
  rw [h1]
  unfold softmaxRow
  rw [getD_map _ _ _ 0 (by rw [spike_row_length]; norm_num)]
  have hx : ((20 : ℝ) :: List.replicate 4095 0).getD 1 0 = 0 := by
    have : ((20 : ℝ) :: List.replicate 4095 0).getD 1 0 =
        (List.replicate 4095 (0 : ℝ)).getD 0 0 := rfl
    rw [this]
    exact getD_replicate _ _ (by norm_num)
  rw [hx, listMax_spike, spike_exp_sum]
  norm_num

theorem exp_neg_one_lb : (0.3678794411 : ℝ) < Real.exp (-1) := by
  rw [Real.exp_neg]
  calc (0.3678794411 : ℝ) < (2.7182818286 : ℝ)⁻¹ := by norm_num
    _ < (Real.exp 1)⁻¹ := inv_strictAnti₀ (Real.exp_pos 1) Real.exp_one_lt_d9

theorem exp_neg_one_ub : Real.exp (-1) < 0.3678794412 := by
  rw [Real.exp_neg]
  calc (Real.exp 1)⁻¹ < (2.7182818283 : ℝ)⁻¹ :=
        inv_strictAnti₀ (by norm_num) Real.exp_one_gt_d9
    _ < 0.3678794412 := by norm_num

theorem exp_pow_bounds :
    ((0.3678794411 : ℝ) ^ 2 < Real.exp (-1) ^ 2 ∧
      Real.exp (-1) ^ 2 < (0.3678794412 : ℝ) ^ 2) ∧
    ((0.3678794411 : ℝ) ^ 3 < Real.exp (-1) ^ 3 ∧
      Real.exp (-1) ^ 3 < (0.3678794412 : ℝ) ^ 3) ∧
    ((0.3678794411 : ℝ) ^ 4 < Real.exp (-1) ^ 4 ∧
      Real.exp (-1) ^ 4 < (0.3678794412 : ℝ) ^ 4) ∧
    ((0.3678794411 : ℝ) ^ 5 < Real.exp (-1) ^ 5 ∧
      Real.exp (-1) ^ 5 < (0.3678794412 : ℝ) ^ 5) := by
  have ha1 := exp_neg_one_lb
  have ha2 := exp_neg_one_ub
  have h0 : (0 : ℝ) ≤ 0.3678794411 := by norm_num
  have h0' : (0 : ℝ) ≤ Real.exp (-1) := le_of_lt (Real.exp_pos _)
  exact ⟨⟨pow_lt_pow_left ha1 h0 (by norm_num), pow_lt_pow_left ha2 h0' (by norm_num)⟩,
    ⟨pow_lt_pow_left ha1 h0 (by norm_num), pow_lt_pow_left ha2 h0' (by norm_num)⟩,
    ⟨pow_lt_pow_left ha1 h0 (by norm_num), pow_lt_pow_left ha2 h0' (by norm_num)⟩,
    ⟨pow_lt_pow_left ha1 h0 (by norm_num), pow_lt_pow_left ha2 h0' (by norm_num)⟩⟩

set_option maxHeartbeats 1000000 in
theorem softmax_example_bound : ∀ k, k < 6 →
    |(call_last_softmax [1, 2, 3, 4, 5, 6] 6).getD k 0 -
      ([0.0043, 0.0116, 0.0315, 0.0858, 0.2331, 0.6337] : List ℝ).getD k 0| < 1 / 20000 := by
  intro k hk
  have hm6 : listMax [1, 2, 3, 4, 5, 6] = 6 := by
    norm_num [listMax, List.foldl_cons, List.foldl_nil, max_def]
  have e5 : Real.exp (-5 : ℝ) = Real.exp (-1) ^ 5 := by
    rw [show (-5 : ℝ) = ((5 : ℕ) : ℝ) * (-1) by norm_num, Real.exp_nat_mul]
  have e4 : Real.exp (-4 : ℝ) = Real.exp (-1) ^ 4 := by
    rw [show (-4 : ℝ) = ((4 : ℕ) : ℝ) * (-1) by norm_num, Real.exp_nat_mul]
  have e3 : Real.exp (-3 : ℝ) = Real.exp (-1) ^ 3 := by
    rw [show (-3 : ℝ) = ((3 : ℕ) : ℝ) * (-1) by norm_num, Real.exp_nat_mul]
  have e2 : Real.exp (-2 : ℝ) = Real.exp (-1) ^ 2 := by
    rw [show (-2 : ℝ) = ((2 : ℕ) : ℝ) * (-1) by norm_num, Real.exp_nat_mul]
  have hsum6 : (([1, 2, 3, 4, 5, 6] : List ℝ).map (fun y => Real.exp (y - 6))).sum =
      Real.exp (-1) ^ 5 + Real.exp (-1) ^ 4 + Real.exp (-1) ^ 3 + Real.exp (-1) ^ 2 +
        Real.exp (-1) + 1 := by
    simp only [List.map_cons, List.map_nil, List.sum_cons, List.sum_nil]
    norm_num [e5, e4, e3, e2, Real.exp_zero]
    ring
  have ha1 := exp_neg_one_lb
  have ha2 := exp_neg_one_ub
  obtain ⟨⟨hp2l, hp2u⟩, ⟨hp3l, hp3u⟩, ⟨hp4l, hp4u⟩, ⟨hp5l, hp5u⟩⟩ := exp_pow_bounds
  have hSl : (1.5780553 : ℝ) < Real.exp (-1) ^ 5 + Real.exp (-1) ^ 4 +
      Real.exp (-1) ^ 3 + Real.exp (-1) ^ 2 + Real.exp (-1) + 1 := by linarith
  have hSu : Real.exp (-1) ^ 5 + Real.exp (-1) ^ 4 + Real.exp (-1) ^ 3 +
      Real.exp (-1) ^ 2 + Real.exp (-1) + 1 < (1.5780554 : ℝ) := by linarith
  have hS0 : (0 : ℝ) < Real.exp (-1) ^ 5 + Real.exp (-1) ^ 4 + Real.exp (-1) ^ 3 +
      Real.exp (-1) ^ 2 + Real.exp (-1) + 1 := by linarith
  have hv0 : (call_last_softmax [1, 2, 3, 4, 5, 6] 6).getD 0 0 =
      Real.exp (-1) ^ 5 / (Real.exp (-1) ^ 5 + Real.exp (-1) ^ 4 + Real.exp (-1) ^ 3 +
        Real.exp (-1) ^ 2 + Real.exp (-1) + 1) := by
    have hb : (call_last_softmax [1, 2, 3, 4, 5, 6] 6).getD 0 0 =
        Real.exp (1 - listMax [1, 2, 3, 4, 5, 6]) /
          (([1, 2, 3, 4, 5, 6] : List ℝ).map
            (fun y => Real.exp (y - listMax [1, 2, 3, 4, 5, 6]))).sum := rfl
    rw [hb, hm6, hsum6, show ((1 : ℝ) - 6) = -5 by norm_num, e5]
  have hv1 : (call_last_softmax [1, 2, 3, 4, 5, 6] 6).getD 1 0 =
      Real.exp (-1) ^ 4 / (Real.exp (-1) ^ 5 + Real.exp (-1) ^ 4 + Real.exp (-1) ^ 3 +
        Real.exp (-1) ^ 2 + Real.exp (-1) + 1) := by
    have hb : (call_last_softmax [1, 2, 3, 4, 5, 6] 6).getD 1 0 =
        Real.exp (2 - listMax [1, 2, 3, 4, 5, 6]) /
          (([1, 2, 3, 4, 5, 6] : List ℝ).map
            (fun y => Real.exp (y - listMax [1, 2, 3, 4, 5, 6]))).sum := rfl
    rw [hb, hm6, hsum6, show ((2 : ℝ) - 6) = -4 by norm_num, e4]
  have hv2 : (call_last_softmax [1, 2, 3, 4, 5, 6] 6).getD 2 0 =
      Real.exp (-1) ^ 3 / (Real.exp (-1) ^ 5 + Real.exp (-1) ^ 4 + Real.exp (-1) ^ 3 +
        Real.exp (-1) ^ 2 + Real.exp (-1) + 1) := by
    have hb : (call_last_softmax [1, 2, 3, 4, 5, 6] 6).getD 2 0 =
        Real.exp (3 - listMax [1, 2, 3, 4, 5, 6]) /
          (([1, 2, 3, 4, 5, 6] : List ℝ).map
            (fun y => Real.exp (y - listMax [1, 2, 3, 4, 5, 6]))).sum := rfl
    rw [hb, hm6, hsum6, show ((3 : ℝ) - 6) = -3 by norm_num, e3]
  have hv3 : (call_last_softmax [1, 2, 3, 4, 5, 6] 6).getD 3 0 =
      Real.exp (-1) ^ 2 / (Real.exp (-1) ^ 5 + Real.exp (-1) ^ 4 + Real.exp (-1) ^ 3 +
        Real.exp (-1) ^ 2 + Real.exp (-1) + 1) := by
    have hb : (call_last_softmax [1, 2, 3, 4, 5, 6] 6).getD 3 0 =
        Real.exp (4 - listMax [1, 2, 3, 4, 5, 6]) /
          (([1, 2, 3, 4, 5, 6] : List ℝ).map
            (fun y => Real.exp (y - listMax [1, 2, 3, 4, 5, 6]))).sum := rfl
    rw [hb, hm6, hsum6, show ((4 : ℝ) - 6) = -2 by norm_num, e2]
  have hv4 : (call_last_softmax [1, 2, 3, 4, 5, 6] 6).getD 4 0 =
      Real.exp (-1) / (Real.exp (-1) ^ 5 + Real.exp (-1) ^ 4 + Real.exp (-1) ^ 3 +
        Real.exp (-1) ^ 2 + Real.exp (-1) + 1) := by
    have hb : (call_last_softmax [1, 2, 3, 4, 5, 6] 6).getD 4 0 =
        Real.exp (5 - listMax [1, 2, 3, 4, 5, 6]) /
          (([1, 2, 3, 4, 5, 6] : List ℝ).map
            (fun y => Real.exp (y - listMax [1, 2, 3, 4, 5, 6]))).sum := rfl
    rw [hb, hm6, hsum6, show ((5 : ℝ) - 6) = -1 by norm_num]
  have hv5 : (call_last_softmax [1, 2, 3, 4, 5, 6] 6).getD 5 0 =
      1 / (Real.exp (-1) ^ 5 + Real.exp (-1) ^ 4 + Real.exp (-1) ^ 3 +
        Real.exp (-1) ^ 2 + Real.exp (-1) + 1) := by
    have hb : (call_last_softmax [1, 2, 3, 4, 5, 6] 6).getD 5 0 =
        Real.exp (6 - listMax [1, 2, 3, 4, 5, 6]) /
          (([1, 2, 3, 4, 5, 6] : List ℝ).map
            (fun y => Real.exp (y - listMax [1, 2, 3, 4, 5, 6]))).sum := rfl
    rw [hb, hm6, hsum6, show ((6 : ℝ) - 6) = 0 by norm_num, Real.exp_zero]
  interval_cases k
  · rw [hv0, show (([0.0043, 0.0116, 0.0315, 0.0858, 0.2331, 0.6337] : List ℝ)).getD 0 0
      = 0.0043 from rfl]
    exact abs_div_sub_lt hS0 (by linarith) (by linarith)
  · rw [hv1, show (([0.0043, 0.0116, 0.0315, 0.0858, 0.2331, 0.6337] : List ℝ)).getD 1 0
      = 0.0116 from rfl]
    exact abs_div_sub_lt hS0 (by linarith) (by linarith)
  · rw [hv2, show (([0.0043, 0.0116, 0.0315, 0.0858, 0.2331, 0.6337] : List ℝ)).getD 2 0
      = 0.0315 from rfl]
    exact abs_div_sub_lt hS0 (by linarith) (by linarith)
  · rw [hv3, show (([0.0043, 0.0116, 0.0315, 0.0858, 0.2331, 0.6337] : List ℝ)).getD 3 0
      = 0.0858 from rfl]
    exact abs_div_sub_lt hS0 (by linarith) (by linarith)
  · rw [hv4, show (([0.0043, 0.0116, 0.0315, 0.0858, 0.2331, 0.6337] : List ℝ)).getD 4 0
      = 0.2331 from rfl]
    exact abs_div_sub_lt hS0 (by linarith) (by linarith)
  · rw [hv5, show (([0.0043, 0.0116, 0.0315, 0.0858, 0.2331, 0.6337] : List ℝ)).getD 5 0
      = 0.6337 from rfl]
    exact abs_div_sub_lt hS0 (by linarith) (by linarith)

theorem softmax_spec :
    (∀ (v : List ℝ) (n : ℕ), 0 < n → ∀ i, (i + 1) * n ≤ v.length →
      ((call_last_softmax v n).drop (i * n)).take n =
        softmaxRow ((v.drop (i * n)).take n) ∧
      (((call_last_softmax v n).drop (i * n)).take n).sum = 1 ∧
      listMax ((v.drop (i * n)).take n) ∈ (v.drop (i * n)).take n ∧
      (∀ x ∈ (v.drop (i * n)).take n, x ≤ listMax ((v.drop (i * n)).take n)) ∧
      (∀ k, k < n → (call_last_softmax v n).getD (i * n + k) 0 =
        Real.exp (((v.drop (i * n)).take n).getD k 0 -
            listMax ((v.drop (i * n)).take n)) /
          (((v.drop (i * n)).take n).map
            (fun y => Real.exp (y - listMax ((v.drop (i * n)).take n)))).sum)) ∧
    (∀ k, k < 6 → |(call_last_softmax [1, 2, 3, 4, 5, 6] 6).getD k 0 -
        ([0.0043, 0.0116, 0.0315, 0.0858, 0.2331, 0.6337] : List ℝ).getD k 0| <
      1 / 20000) ∧
    (∀ i, i < 200 →
      (((call_last_softmax ((List.replicate 200 ((20 : ℝ) ::
          List.replicate 4095 0)).flatten) 4096).drop (i * 4096)).take 4096).sum = 1 ∧
      |(call_last_softmax ((List.replicate 200 ((20 : ℝ) ::
          List.replicate 4095 0)).flatten) 4096).getD (i * 4096) 0 - 1| < 1 / 20000 ∧
      |(call_last_softmax ((List.replicate 200 ((20 : ℝ) ::
          List.replicate 4095 0)).flatten) 4096).getD (i * 4096 + 1) 0 - 0| <
        1 / 20000) := by
  refine ⟨?_, softmax_example_bound, ?_⟩
  · intro v n hn i hi
    have hrow := call_last_softmax_row v n hn i hi
    have hrowlen : ((v.drop (i * n)).take n).length = n := by
      have hexp : (i + 1) * n = i * n + n := by ring
      rw [hexp] at hi
      rw [List.length_take, List.length_drop]
      omega
    have hne : (v.drop (i * n)).take n ≠ [] := by
      intro hnil
      rw [hnil] at hrowlen
      simp only [List.length_nil] at hrowlen
      omega
    refine ⟨hrow, ?_, listMax_mem hne, fun x hx => le_listMax hx, ?_⟩
    · rw [hrow]
      exact softmaxRow_sum_one hne
    · intro k hk
      have e2 := getD_drop (call_last_softmax v n) (i * n) k 0
      have e1 := getD_take ((call_last_softmax v n).drop (i * n))
        (show k < n from hk) (0 : ℝ)
      rw [e2] at e1
      rw [← e1, hrow]
      unfold softmaxRow
      rw [getD_map _ _ _ 0 (by rw [hrowlen]; exact hk)]
  · intro i hi
    rw [spike_call]
    have hu := exp_neg_twenty_small
    have hp := Real.exp_pos (-20 : ℝ)
    have hs0 : (0 : ℝ) < 1 + 4095 * Real.exp (-20) := by nlinarith
    refine ⟨?_, ?_, ?_⟩
    · rw [spike_chunk i hi]
      exact softmaxRow_sum_one (List.cons_ne_nil _ _)
    · rw [spike_getD_zero i hi, Real.exp_zero]
      exact abs_div_sub_lt hs0 (by nlinarith) (by nlinarith)
    · rw [spike_getD_one i hi]
      exact abs_div_sub_lt hs0 (by nlinarith) (by nlinarith)

/-- Witness for C1: the general row property at `v = [0]`, `n = 1`, and the
first entry of the `[1..6]` example. -/
theorem softmax_spec_witness :
    (((call_last_softmax [(0 : ℝ)] 1).drop (0 * 1)).take 1).sum = 1 ∧
    |(call_last_softmax [1, 2, 3, 4, 5, 6] 6).getD 0 0 -
      ([0.0043, 0.0116, 0.0315, 0.0858, 0.2331, 0.6337] : List ℝ).getD 0 0| <
      1 / 20000 :=
  ⟨(softmax_spec.1 [(0 : ℝ)] 1 (by norm_num) 0 (by simp)).2.1,
   softmax_spec.2.1 0 (by norm_num)⟩
